import Mathlib

/-!
Shallow embedding of src/web_scraper.py and verification of the frozen claims.

Python strings are modelled as lists of characters (PyStr). The external
collaborators are modelled as parameters: the HTTP transport is an
Option HNode (none = transport failure, some soup = fetched and parsed body),
and urljoin is an abstract function argument. Everything with original logic
in the scraper (selector cascades, fallback extraction, regex heuristics,
the selection loop, the exit-code policy) is embedded faithfully below.
-/

abbrev PyStr := List Char

/-- Python whitespace for str.strip and the regex class for blanks:
space (32) and the control characters 9..13 (tab, lf, vt, ff, cr). -/
def isWsCh (c : Char) : Bool := c.toNat == 32 || (9 ≤ c.toNat && c.toNat ≤ 13)

/-- ASCII decimal digit, the model of the regex class of digits. -/
def isDig (c : Char) : Bool := 48 ≤ c.toNat && c.toNat ≤ 57

/-- Drop leading whitespace. -/
def dropWs (l : PyStr) : PyStr := l.dropWhile isWsCh

/-- Python str.strip(): remove leading and trailing whitespace. -/
def trimBoth (l : PyStr) : PyStr := (dropWs (dropWs l).reverse).reverse

/-- Python separator.join(segments). -/
def joinSegs (sep : PyStr) : List PyStr → PyStr
  | [] => []
  | [s] => s
  | s :: rest => s ++ sep ++ joinSegs sep rest

/-- Python text.split(chr(10)): split on every newline, keeping empty pieces. -/
def splitNl : PyStr → List PyStr
  | [] => [[]]
  | c :: cs =>
    let r := splitNl cs
    if c == '\n' then [] :: r
    else
      match r with
      | [] => [[c]]
      | h :: t => (c :: h) :: t

/-- Helper for splitWs: accumulates the current word in reverse. -/
def splitWsAux (cur : PyStr) : PyStr → List PyStr
  | [] => if cur.isEmpty then [] else [cur.reverse]
  | c :: cs =>
    if isWsCh c then
      if cur.isEmpty then splitWsAux [] cs else cur.reverse :: splitWsAux [] cs
    else splitWsAux (c :: cur) cs

/-- Python str.split() with no argument: split on whitespace runs, no empties.
Used for the multi-valued class attribute. -/
def splitWs (s : PyStr) : List PyStr := splitWsAux [] s

/-- Does s start with pre. -/
def startsWithL : PyStr → PyStr → Bool
  | [], _ => true
  | _ :: _, [] => false
  | p :: ps, c :: cs => p == c && startsWithL ps cs

/-- Does s contain sub as a contiguous substring. -/
def containsSub (sub : PyStr) : PyStr → Bool
  | [] => startsWithL sub []
  | c :: cs => startsWithL sub (c :: cs) || containsSub sub cs

/-- Case-insensitive: the next unit.length characters of s, lowercased,
equal unit. -/
def lowStarts (unit s : PyStr) : Bool := (s.take unit.length).map Char.toLower == unit

/-- Value of a digit string, most significant first (model of Python int). -/
def digitsVal (l : PyStr) : Nat := l.foldl (fun n c => 10 * n + (c.toNat - 48)) 0

/-- Python str.isdigit for the ASCII model: non-empty and all digits. -/
def pyIsDigit (s : PyStr) : Bool := !s.isEmpty && s.all isDig

/-- The literal placeholder used by the scraper for unresolved fields. -/
def NA : PyStr := "N/A".data

/-- A parsed markup node: an element with tag name, attributes and children,
or a bare text node. This is the model of the BeautifulSoup tree. -/
inductive HNode where
  | el (tag : String) (attrs : List (String × String)) (children : List HNode)
  | txt (s : String)

mutual

/-- Structural boolean equality of nodes, the model of the bs4 Tag equality
used by the Python operator in (name, attributes and contents compared). -/
def nodeBeq : HNode → HNode → Bool
  | .txt a, .txt b => a == b
  | .el t1 a1 c1, .el t2 a2 c2 => t1 == t2 && a1 == a2 && nodesBeq c1 c2
  | .txt _, .el _ _ _ => false
  | .el _ _ _, .txt _ => false

def nodesBeq : List HNode → List HNode → Bool
  | [], [] => true
  | x :: xs, y :: ys => nodeBeq x y && nodesBeq xs ys
  | [], _ :: _ => false
  | _ :: _, [] => false

end

mutual

def nodeBeq_eq : ∀ (a b : HNode), nodeBeq a b = true → a = b
  | .txt a, .txt b, h => by
      simp only [nodeBeq, beq_iff_eq] at h
      rw [h]
  | .el t1 a1 c1, .el t2 a2 c2, h => by
      simp only [nodeBeq, Bool.and_eq_true, beq_iff_eq] at h
      obtain ⟨⟨h1, h2⟩, h3⟩ := h
      rw [h1, h2, nodesBeq_eq c1 c2 h3]
  | .txt _, .el _ _ _, h => by simp [nodeBeq] at h
  | .el _ _ _, .txt _, h => by simp [nodeBeq] at h

def nodesBeq_eq : ∀ (l1 l2 : List HNode), nodesBeq l1 l2 = true → l1 = l2
  | [], [], _ => rfl
  | x :: xs, y :: ys, h => by
      simp only [nodesBeq, Bool.and_eq_true] at h
      rw [nodeBeq_eq x y h.1, nodesBeq_eq xs ys h.2]
  | [], _ :: _, h => by simp [nodesBeq] at h
  | _ :: _, [], h => by simp [nodesBeq] at h

end

mutual

def nodeBeq_refl : ∀ (a : HNode), nodeBeq a a = true
  | .txt a => by simp [nodeBeq]
  | .el t1 a1 c1 => by simp [nodeBeq, nodesBeq_refl c1]

def nodesBeq_refl : ∀ (l : List HNode), nodesBeq l l = true
  | [] => rfl
  | x :: xs => by simp [nodesBeq, nodeBeq_refl x, nodesBeq_refl xs]

end

instance : DecidableEq HNode := fun a b =>
  if h : nodeBeq a b = true then .isTrue (nodeBeq_eq a b h)
  else .isFalse (fun he => h (by rw [he]; exact nodeBeq_refl b))

/-- Attribute lookup on an attribute list (model of Tag.get). -/
def attrLookup (attrs : List (String × String)) (key : String) : Option String :=
  (attrs.find? (fun kv => kv.1 == key)).map (fun kv => kv.2)

/-- Attribute lookup on a node. -/
def attrValOf (n : HNode) (key : String) : Option String :=
  match n with
  | .txt _ => none
  | .el _ attrs _ => attrLookup attrs key

/-- Python truthiness of a bs4 node: a Tag is truthy when it has contents,
a NavigableString when it is non-empty. -/
def isTruthyNode : HNode → Bool
  | .el _ _ ch => !ch.isEmpty
  | .txt s => !s.isEmpty

/-- Is the node an element with the given tag name. -/
def tagIs (t : String) : HNode → Bool
  | .el tg _ _ => tg == t
  | .txt _ => false

/-- Heading elements of levels 1 to 6 (the regex on tag names at line 57). -/
def isHeading : HNode → Bool
  | .el tg _ _ =>
    tg == "h1" || tg == "h2" || tg == "h3" || tg == "h4" || tg == "h5" || tg == "h6"
  | .txt _ => false

mutual

/-- All descendant text pieces of a node in document order
(the NavigableStrings that get_text joins). -/
def strsOf : HNode → List PyStr
  | .txt s => [s.data]
  | .el _ _ ch => strsOfL ch

def strsOfL : List HNode → List PyStr
  | [] => []
  | c :: cs => strsOf c ++ strsOfL cs

end

mutual

/-- All descendant nodes in document (preorder) order, excluding the node
itself: the search space of select, select_one, find and find_all. -/
def descendants : HNode → List HNode
  | .txt _ => []
  | .el _ _ ch => descendantsL ch

def descendantsL : List HNode → List HNode
  | [] => []
  | c :: cs => c :: descendants c ++ descendantsL cs

end

mutual

/-- For every heading element in document order, its immediate parent
(the find_parent of each find_all heading at lines 57-60). The node this is
called on plays the role of the document object itself. -/
def hpOf : HNode → List HNode
  | .txt _ => []
  | .el t a ch => hpChildren (HNode.el t a ch) ch

def hpChildren (parent : HNode) : List HNode → List HNode
  | [] => []
  | c :: cs => (if isHeading c then [parent] else []) ++ hpOf c ++ hpChildren parent cs

end

/-- The stripped, non-blank text segments of a node in document order:
what get_text(strip=True) joins. -/
def segsOf (n : HNode) : List PyStr :=
  ((strsOf n).map trimBoth).filter (fun s => !s.isEmpty)

/-- Model of get_text(separator=sep, strip=True): every descendant string is
stripped, blanks are dropped, the rest joined with the separator. -/
def getTextSep (sep : PyStr) (n : HNode) : PyStr :=
  joinSegs sep (segsOf n)

/-- get_text(strip=True) with the default empty separator. -/
def textStrip (n : HNode) : PyStr := getTextSep [] n

/-- get_text(separator=" ", strip=True), the full-text form used by the
scraper for fallback title, rating regex, and snippets. -/
def fullTextOf (n : HNode) : PyStr := getTextSep [' '] n

/-- The CSS-like selector shapes used by the scraper. -/
inductive Sel where
  | tagName (t : String)
  | className (c : String)
  | tagAndClass (t c : String)
  | tagClassSub (t sub : String)
  | tagWithAttr (t a : String)

/-- Selector matching: class selectors test membership in the
whitespace-split class attribute; the substring form tests the raw
attribute value; the attribute form tests presence. -/
def matchesSel (s : Sel) (n : HNode) : Bool :=
  match n with
  | .txt _ => false
  | .el tag attrs _ =>
    match s with
    | .tagName t => tag == t
    | .className c => (splitWs ((attrLookup attrs "class").getD "").data).contains c.data
    | .tagAndClass t c =>
      tag == t && (splitWs ((attrLookup attrs "class").getD "").data).contains c.data
    | .tagClassSub t sub =>
      tag == t &&
        (match attrLookup attrs "class" with
         | some v => containsSub sub.data v.data
         | none => false)
    | .tagWithAttr t a => tag == t && (attrLookup attrs a).isSome

/-- Model of node.select(sel): matching descendants in document order. -/
def selectAll (n : HNode) (s : Sel) : List HNode := (descendants n).filter (matchesSel s)

/-- Model of node.select_one(sel). -/
def selectOne (n : HNode) (s : Sel) : Option HNode := (selectAll n s).head?

/-- Model of node.find(tagname): first descendant element with that tag. -/
def findTag (n : HNode) (t : String) : Option HNode := (descendants n).find? (tagIs t)

/-! ## Listing Locator (scrape_movies lines 38-63) -/

/-- The ordered selector cascade of lines 39-47. -/
def listingSelectors : List Sel :=
  [.tagAndClass "div" "movie-item", .tagAndClass "article" "movie", .tagAndClass "li" "movie",
   .tagAndClass "div" "movie", .tagClassSub "div" "movie", .tagName "article", .tagName "li"]

/-- The cascade loop of lines 49-54: the first selector with a non-empty
match set wins; later selectors are not consulted. -/
def firstNonEmptyMatch (soup : HNode) : List Sel → List HNode
  | [] => []
  | s :: rest =>
    let found := selectAll soup s
    if found.isEmpty then firstNonEmptyMatch soup rest else found

/-- The parents of all headings, in heading document order (lines 57-60). -/
def headingParents (soup : HNode) : List HNode := hpOf soup

/-- The candidate accumulation loop of lines 58-62: keep a parent when it is
truthy and not already present (the Python operator in compares nodes
structurally), preserving first-seen order. -/
def dedupFrom (acc : List HNode) : List HNode → List HNode
  | [] => acc
  | p :: rest =>
    if isTruthyNode p = true ∧ p ∉ acc then dedupFrom (acc ++ [p]) rest
    else dedupFrom acc rest

/-- The full Listing Locator: selector cascade, then heading-parent fallback
(lines 49-63). -/
def movieListings (soup : HNode) : List HNode :=
  let ml := firstNonEmptyMatch soup listingSelectors
  if ml.isEmpty then dedupFrom [] (headingParents soup) else ml

/-! ## Regex search models

Python re.search scans start positions left to right and returns the first
position where the pattern matches; alternatives are tried left to right,
quantifiers greedily with backtracking. Each matcher below returns the full
matched substring (group 0) when the pattern matches at the head of its
input, mirroring that discipline. -/

/-- Try a positional matcher at every start position, leftmost first. -/
def searchFirst (m : PyStr → Option PyStr) : PyStr → Option PyStr
  | [] => none
  | c :: cs => m (c :: cs) <|> searchFirst m cs

/-- The year pattern 19 or 20 followed by two digits, at this position. -/
def matchYearAt : PyStr → Option PyStr
  | '1' :: '9' :: a :: b :: _ =>
    if isDig a && isDig b then some ['1', '9', a, b] else none
  | '2' :: '0' :: a :: b :: _ =>
    if isDig a && isDig b then some ['2', '0', a, b] else none
  | _ => none

/-- First match of the year regex of lines 145 and 165. -/
def searchYear (s : PyStr) : Option PyStr := searchFirst matchYearAt s

/-- An optional decimal fraction: a dot followed by one or more digits.
Returns the fraction characters and the remaining input. -/
def fracPart : PyStr → Option (PyStr × PyStr)
  | '.' :: r2 =>
    let d2 := r2.takeWhile isDig
    if d2.isEmpty then none else some ('.' :: d2, r2.dropWhile isDig)
  | _ => none

/-- One alternative of the rating regex: digits d (already consumed), then an
optional fraction (preferred, as the quantifier is greedy), then the literal
tail. Mirrors backtracking: if the fraction parses but the tail fails after
it, the fraction-free parse is attempted at the same spot and fails on the
dot, exactly as in Python. -/
def ratingAlt (tailPat d rest : PyStr) : Option PyStr :=
  (match fracPart rest with
   | some (fr, r3) => if startsWithL tailPat r3 then some (d ++ fr ++ tailPat) else none
   | none => none)
  <|> (if startsWithL tailPat rest then some (d ++ tailPat) else none)

/-- The rating regex of line 89 at one position: number/10, else
number out of 10. The leading digit run never genuinely backtracks because
each continuation starts with a non-digit. -/
def matchRatingAt (cs : PyStr) : Option PyStr :=
  let d := cs.takeWhile isDig
  if d.isEmpty then none
  else
    ratingAlt "/10".data d (cs.dropWhile isDig) <|>
      ratingAlt " out of 10".data d (cs.dropWhile isDig)

/-- First match of the rating regex over the full item text. -/
def searchRating (s : PyStr) : Option PyStr := searchFirst matchRatingAt s

/-- Duration regex tail with the optional whitespace consumed: one
whitespace character then the unit, matched case-insensitively; returns the
original characters of the match after the digits d. -/
def durWithWs (unit d r : PyStr) : Option PyStr :=
  match r with
  | w :: r2 =>
    if isWsCh w && lowStarts unit r2 then some (d ++ w :: r2.take unit.length) else none
  | [] => none

/-- Duration regex tail with the optional whitespace skipped. -/
def durNoWs (unit d r : PyStr) : Option PyStr :=
  if lowStarts unit r then some (d ++ r.take unit.length) else none

/-- One backtracking branch of the duration regex: exactly k leading digits,
then an optional whitespace character (greedy, so the consuming parse is
preferred), then the unit matched case-insensitively. -/
def tryDur (unit : PyStr) (k : Nat) (cs : PyStr) : Option PyStr :=
  let d := cs.take k
  if d.length == k && d.all isDig then
    durWithWs unit d (cs.drop k) <|> durNoWs unit d (cs.drop k)
  else none

/-- One alternative of the duration regex at a position: one to three digits,
greedy, so three digits are preferred. -/
def durAlt (unit cs : PyStr) : Option PyStr :=
  tryDur unit 3 cs <|> tryDur unit 2 cs <|> tryDur unit 1 cs

/-- The duration regex of lines 150 and 169 at one position, case-insensitive:
digits then min, else digits then minutes. -/
def matchDurAt (cs : PyStr) : Option PyStr :=
  durAlt "min".data cs <|> durAlt "minutes".data cs

/-- First match of the duration regex. -/
def searchDur (s : PyStr) : Option PyStr := searchFirst matchDurAt s

/-! ## Field Extractor (scrape_movies lines 65-116) -/

/-- A scraped record. RawHTML keeps the item node itself: the Python code
stores str(movie) and the only consumer re-parses it, so serialization
composed with parsing is modelled as the identity. -/
structure MovieRec where
  Title : PyStr
  Rating : PyStr
  Link : Option PyStr
  Snippet : PyStr
  RawHTML : HNode

/-- The title selector cascade of line 68. -/
def titleSelectors : List Sel :=
  [.className "movie-title", .tagName "h2", .tagName "h3",
   .tagAndClass "a" "title", .tagName "a", .className "title"]

/-- The rating selector cascade of line 80. -/
def ratingSelectors : List Sel :=
  [.className "movie-rating", .className "rating", .className "score",
   .tagClassSub "span" "rating", .tagClassSub "div" "rating"]

/-- The per-field selector loop (lines 69-73 and 81-85): first selector whose
first match is truthy with non-empty stripped text wins, otherwise continue. -/
def cascadeFirst (movie : HNode) : List Sel → Option PyStr
  | [] => none
  | s :: rest =>
    match selectOne movie s with
    | some e =>
      if isTruthyNode e && !(textStrip e).isEmpty then some (textStrip e)
      else cascadeFirst movie rest
    | none => cascadeFirst movie rest

/-- Python falsiness of an optional string: absent or empty. -/
def strFalsy : Option PyStr → Bool
  | none => true
  | some s => s.isEmpty

/-- The snippet fallback of line 108: full text truncated to 300 characters
with an ellipsis appended when truncated, empty when there is no text. -/
def snippetFallback (movie : HNode) : PyStr :=
  let text := fullTextOf movie
  if text.isEmpty then []
  else text.take 300 ++ (if 300 < text.length then "...".data else [])

/-- The title logic of lines 67-77 and the final fallback of line 111: the
selector cascade, else the stripped first line of the full text, else the
placeholder; an empty final value is replaced by the placeholder. -/
def titleOf (movie : HNode) : PyStr :=
  let t0 := cascadeFirst movie titleSelectors
  let t1 : Option PyStr :=
    if strFalsy t0 then
      (let text := fullTextOf movie
       if text.isEmpty then some NA else some (trimBoth ((splitNl text).headD [])))
    else t0
  if strFalsy t1 then NA else t1.getD []

/-- The rating logic of lines 79-93: the selector cascade, else the first
regex match over the full text, else the placeholder. -/
def ratingOf (movie : HNode) : PyStr :=
  let r0 := cascadeFirst movie ratingSelectors
  let r1 : Option PyStr :=
    if strFalsy r0 then searchRating (fullTextOf movie) else r0
  if strFalsy r1 then NA else r1.getD []

/-- The link logic of lines 96-99: first truthy anchor carrying a non-empty
href, resolved against the base URL by the urljoin collaborator. -/
def linkOf (joinUrl : PyStr → PyStr → PyStr) (url : PyStr) (movie : HNode) : Option PyStr :=
  match selectOne movie (.tagWithAttr "a" "href") with
  | some a =>
    if isTruthyNode a then
      match attrValOf a "href" with
      | some h => if h.isEmpty then none else some (joinUrl url h.data)
      | none => none
    else none
  | none => none

/-- The snippet logic of lines 101-108: text of the first paragraph when it
is truthy with non-empty stripped text, else the truncated full text. -/
def snippetOf (movie : HNode) : PyStr :=
  match findTag movie "p" with
  | some p =>
    if isTruthyNode p && !(textStrip p).isEmpty then textStrip p
    else snippetFallback movie
  | none => snippetFallback movie

/-- The per-item body of scrape_movies (lines 66-116). joinUrl is the
abstract urljoin collaborator and url the page base URL. Totality of this
definition is the model of the never-raises contract. -/
def extractRec (joinUrl : PyStr → PyStr → PyStr) (url : PyStr) (movie : HNode) : MovieRec :=
  { Title := titleOf movie
    Rating := ratingOf movie
    Link := linkOf joinUrl url movie
    Snippet := snippetOf movie
    RawHTML := movie }

/-- scrape_movies (lines 21-118): transport failure gives the empty list,
otherwise every located item is extracted in document order. -/
def scrapeMovies (fetched : Option HNode) (joinUrl : PyStr → PyStr → PyStr)
    (url : PyStr) : List MovieRec :=
  match fetched with
  | none => []
  | some soup => (movieListings soup).map (extractRec joinUrl url)

/-! ## Detail Enricher (lines 120-172) -/

/-- The enrichment output shape. -/
structure EnrichOut where
  Summary : Option PyStr
  Year : Option PyStr
  Duration : Option PyStr
  Additional : Option PyStr

/-- The summary loop of lines 136-141: first paragraph whose stripped text is
non-empty with length above 20. -/
def firstSummary : List HNode → Option PyStr
  | [] => none
  | p :: rest =>
    let t := textStrip p
    if !t.isEmpty && 20 < t.length then some t else firstSummary rest

/-- The successful-fetch body of fetch_movie_details_from_page
(lines 134-154). -/
def detailsOfPage (soup : HNode) : EnrichOut :=
  let summary := firstSummary ((descendants soup).filter (tagIs "p"))
  let ft := fullTextOf soup
  { Summary := summary, Year := searchYear ft, Duration := searchDur ft, Additional := none }

/-- fetch_movie_details_from_page (lines 120-154): the transport outcome is
the argument; any transport failure gives all fields absent. -/
def fetchMovieDetailsFromPage : Option HNode → EnrichOut
  | none => { Summary := none, Year := none, Duration := none, Additional := none }
  | some soup => detailsOfPage soup

/-- extract_details_from_rawhtml (lines 156-172) on the re-parsed markup:
the first paragraph is used whenever its stripped text is non-empty,
with no length requirement. -/
def extractDetailsFromRawhtml (soup : HNode) : EnrichOut :=
  let summary : Option PyStr :=
    match findTag soup "p" with
    | some p =>
      if isTruthyNode p && !(textStrip p).isEmpty then some (textStrip p) else none
    | none => none
  let ft := fullTextOf soup
  { Summary := summary, Year := searchYear ft, Duration := searchDur ft, Additional := none }

/-! ## Selection Loop (interactive_menu lines 191-227) -/

inductive MenuState where
  | awaitingInput
  | exited
deriving DecidableEq

inductive MenuAct where
  | errPrompt
  | showDetail (idx : Nat)
  | exitMsg
deriving DecidableEq

/-- One iteration of the selection loop on raw input (lines 193-223): strip,
require digits, parse, 0 exits, out of range re-prompts, in range shows the
record at idx-1 and loops back to awaiting input. -/
def menuStep (n : Nat) (raw : PyStr) : MenuState × MenuAct :=
  let choice := trimBoth raw
  if !pyIsDigit choice then (.awaitingInput, .errPrompt)
  else
    let idx := digitsVal choice
    if idx == 0 then (.exited, .exitMsg)
    else if idx < 1 || n < idx then (.awaitingInput, .errPrompt)
    else (.awaitingInput, .showDetail (idx - 1))

/-! ## Top level (lines 230-261) -/

/-- Observable outcome of the top-level script. -/
structure MainOut where
  exitCode : Nat
  jsonFailReported : Bool

/-- The post-argument-parsing control flow of lines 237-261: exit 1 when the
scrape yields nothing; otherwise a JSON write failure is caught at lines
255-256, reported, and the script falls through to exit 0. -/
def mainRun (fetched : Option HNode) (joinUrl : PyStr → PyStr → PyStr) (url : PyStr)
    (jsonRequested writeOk : Bool) : MainOut :=
  let scraped := scrapeMovies fetched joinUrl url
  if scraped.isEmpty then { exitCode := 1, jsonFailReported := false }
  else { exitCode := 0, jsonFailReported := jsonRequested && !writeOk }

/-! ## Spec-side predicates and concrete inputs used by the claims -/

/-- Spec reading of the Year invariant: a 4-digit string whose numeric value
lies in 1900..2099. -/
def isYear4 (y : PyStr) : Prop :=
  y.length = 4 ∧ (∀ c ∈ y, isDig c = true) ∧ 1900 ≤ digitsVal y ∧ digitsVal y ≤ 2099

/-- Spec reading of the minutes pattern: one to three digits, optionally one
whitespace character, then the unit min or minutes matched case-insensitively. -/
def isMinutesShape (d : PyStr) : Prop :=
  ∃ ds sp u, d = ds ++ sp ++ u ∧ 1 ≤ ds.length ∧ ds.length ≤ 3 ∧
    (∀ c ∈ ds, isDig c = true) ∧
    (sp = [] ∨ ∃ w, isWsCh w = true ∧ sp = [w]) ∧
    (u.map Char.toLower = "min".data ∨ u.map Char.toLower = "minutes".data)

/-- Spec reading of the title fallback: after splitting the full text on
newlines, the first line whose stripped content is non-empty. -/
def firstNonBlankLine (t : PyStr) : Option PyStr :=
  (splitNl t).find? (fun l => !(trimBoth l).isEmpty)

/-- A concrete urljoin collaborator for witnesses: returns the href. -/
def joinUrlId : PyStr → PyStr → PyStr := fun _ h => h

/-- An item with no content at all. -/
def nodeEmptyDiv : HNode := .el "div" [] []

/-- An item whose only text is the literal placeholder string. -/
def nodeTextNA : HNode := .el "div" [] [.txt "N/A"]

/-- An item with multi-line text and no title elements. -/
def nodeTitleLines : HNode := .el "div" [] [.txt "Movie One\nSecond line"]

/-- A page holding both a dedicated movie item and a generic article. -/
def c2Tree : HNode :=
  .el "[document]" []
    [.el "div" [("class", "movie-item")] [.el "h2" [] [.txt "T"]],
     .el "article" [] [.txt "B"]]

/-- A heading container repeated twice with identical content. -/
def c5Div : HNode := .el "div" [] [.el "h1" [] [.txt "A"]]

/-- A page with two structurally equal heading parents at distinct positions
and nothing the selector cascade matches. -/
def c5Tree : HNode := .el "[document]" [] [c5Div, c5Div]

/-- A second heading container, structurally different from c5Div. -/
def c5Sect : HNode := .el "section" [] [.el "h2" [] [.txt "B"]]

/-- A page with two structurally distinct heading parents. -/
def c5wTree : HNode := .el "[document]" [] [c5Div, c5Sect]

/-- An item whose text contains 7.5/10 strictly inside a longer match. -/
def node17 : HNode := .el "div" [] [.txt "17.5/10"]

/-- An item whose first rating-regex match is exactly 7.5/10. -/
def node75 : HNode := .el "div" [] [.txt "Rated: 7.5/10"]

/-- A detail page with a long first paragraph, a year and a duration. -/
def c3Page : HNode :=
  .el "html" []
    [.el "p" [] [.txt "This is a sufficiently long summary paragraph."],
     .txt "Released 1994, runtime 120 min."]

/-- Captured item markup whose first paragraph is short. -/
def c3Raw : HNode := .el "div" [] [.el "p" [] [.txt "short"]]

/-- An item whose first paragraph exists but strips to nothing. -/
def snipNode : HNode := .el "div" [] [.el "p" [] [.txt "   "], .txt "Some text here"]

/-! ## Helper lemmas: stripping and joining -/

theorem dropWs_shape (l : PyStr) :
    dropWs l = [] ∨ ∃ c cs, dropWs l = c :: cs ∧ isWsCh c = false := by
  induction l with
  | nil => exact Or.inl rfl
  | cons a t ih =>
    by_cases h : isWsCh a = true
    · simpa [dropWs, List.dropWhile_cons, h] using ih
    · exact Or.inr ⟨a, t, by simp [dropWs, List.dropWhile_cons, h], by simpa using h⟩

theorem dropWs_of_head (c : Char) (cs : PyStr) (h : isWsCh c = false) :
    dropWs (c :: cs) = c :: cs := by
  simp [dropWs, List.dropWhile_cons, h]

theorem dropWs_ne_nil (l : PyStr) (c : Char) (hc : c ∈ l) (h : isWsCh c = false) :
    dropWs l ≠ [] := by
  induction l with
  | nil => cases hc
  | cons a t ih =>
    by_cases ha : isWsCh a = true
    · rcases List.mem_cons.mp hc with rfl | hct
      · rw [ha] at h; cases h
      · simpa [dropWs, List.dropWhile_cons, ha] using ih hct
    · simp [dropWs, List.dropWhile_cons, ha]

theorem dropWs_getLast? (l : PyStr) (h : dropWs l ≠ []) :
    (dropWs l).getLast? = l.getLast? := by
  induction l with
  | nil => simp [dropWs] at h
  | cons a t ih =>
    by_cases ha : isWsCh a = true
    · have he : dropWs (a :: t) = dropWs t := by simp [dropWs, List.dropWhile_cons, ha]
      rw [he] at h ⊢
      rw [ih h]
      cases t with
      | nil => simp [dropWs] at h
      | cons b t' => simp [List.getLast?_cons_cons]
    · simp [dropWs, List.dropWhile_cons, ha]

theorem trimBoth_head (l : PyStr) (h : trimBoth l ≠ []) :
    ∃ c, (trimBoth l).head? = some c ∧ isWsCh c = false := by
  rcases dropWs_shape (dropWs l).reverse with hv | ⟨c, cs, hv, hc⟩
  · unfold trimBoth at h; rw [hv] at h; simp at h
  · rcases dropWs_shape l with hu | ⟨d, ds, hu, hd⟩
    · rw [hu] at hv; simp [dropWs] at hv
    · refine ⟨d, ?_, hd⟩
      unfold trimBoth
      rw [hv, List.head?_reverse]
      have h2 : (c :: cs).getLast? = ((dropWs l).reverse).getLast? := by
        rw [← hv]
        exact dropWs_getLast? ((dropWs l).reverse) (by rw [hv]; simp)
      rw [h2, List.getLast?_reverse, hu]
      rfl

theorem trimBoth_getLast (l : PyStr) (h : trimBoth l ≠ []) :
    ∃ c, (trimBoth l).getLast? = some c ∧ isWsCh c = false := by
  rcases dropWs_shape (dropWs l).reverse with hv | ⟨c, cs, hv, hc⟩
  · unfold trimBoth at h; rw [hv] at h; simp at h
  · refine ⟨c, ?_, hc⟩
    unfold trimBoth
    rw [hv, List.getLast?_reverse]
    rfl

theorem trimBoth_fix (l : PyStr)
    (hh : ∀ c, l.head? = some c → isWsCh c = false)
    (hl : ∀ c, l.getLast? = some c → isWsCh c = false) :
    trimBoth l = l := by
  cases l with
  | nil => rfl
  | cons a t =>
    have ha : isWsCh a = false := hh a rfl
    unfold trimBoth
    rw [dropWs_of_head a t ha]
    cases hr : (a :: t).reverse with
    | nil => simp at hr
    | cons b r =>
      have hb : (a :: t).getLast? = some b := by
        rw [← List.head?_reverse, hr]; rfl
      rw [dropWs_of_head b r (hl b hb), ← hr, List.reverse_reverse]

theorem joinSegs_ne_nil (sep : PyStr) (segs : List PyStr)
    (hne : segs ≠ []) (h : ∀ s ∈ segs, s ≠ []) : joinSegs sep segs ≠ [] := by
  induction segs with
  | nil => cases hne rfl
  | cons s rest ih =>
    cases rest with
    | nil => simpa [joinSegs] using h s (by simp)
    | cons r t =>
      have hs : s ≠ [] := h s (by simp)
      cases s with
      | nil => cases hs rfl
      | cons c cs => simp [joinSegs]

theorem joinSegs_head? (sep : PyStr) (segs : List PyStr)
    (hne : segs ≠ []) (h : ∀ s ∈ segs, s ≠ []) :
    (joinSegs sep segs).head? = (segs.headD []).head? := by
  cases segs with
  | nil => cases hne rfl
  | cons s rest =>
    cases rest with
    | nil => rfl
    | cons r t =>
      cases hs : s with
      | nil => exact absurd hs (h s (by simp))
      | cons c cs => simp [joinSegs]

theorem joinSegs_getLast (sep : PyStr) (segs : List PyStr)
    (hne : segs ≠ []) (h : ∀ s ∈ segs, s ≠ []) :
    ∃ s ∈ segs, (joinSegs sep segs).getLast? = s.getLast? := by
  induction segs with
  | nil => cases hne rfl
  | cons s rest ih =>
    cases rest with
    | nil => exact ⟨s, by simp, by simp [joinSegs]⟩
    | cons r t =>
      have hrt : joinSegs sep (r :: t) ≠ [] :=
        joinSegs_ne_nil sep (r :: t) (by simp) (fun x hx => h x (by simp [hx]))
      obtain ⟨x, hx, hgl⟩ := ih (by simp) (fun y hy => h y (by simp [hy]))
      have hz : (joinSegs sep (r :: t)).getLast?.isSome := by
        rw [List.getLast?_isSome]; exact hrt
      obtain ⟨z, hz'⟩ := Option.isSome_iff_exists.mp hz
      refine ⟨x, List.mem_cons_of_mem s hx, ?_⟩
      have hap : joinSegs sep (s :: r :: t) = s ++ (sep ++ joinSegs sep (r :: t)) := by
        simp [joinSegs]
      rw [hap, List.getLast?_append, List.getLast?_append, hz', ← hgl, hz']
      rfl

theorem segsOf_facts (n : HNode) : ∀ s ∈ segsOf n, s ≠ [] ∧
    (∀ c, s.head? = some c → isWsCh c = false) ∧
    (∀ c, s.getLast? = some c → isWsCh c = false) := by
  intro s hs
  unfold segsOf at hs
  obtain ⟨hmem, hne⟩ := List.mem_filter.mp hs
  obtain ⟨s0, _, rfl⟩ := List.mem_map.mp hmem
  have hsne : trimBoth s0 ≠ [] := by simpa [List.isEmpty_iff] using hne
  obtain ⟨c1, hc1, hw1⟩ := trimBoth_head s0 hsne
  obtain ⟨c2, hc2, hw2⟩ := trimBoth_getLast s0 hsne
  refine ⟨hsne, fun c hc => ?_, fun c hc => ?_⟩
  · rw [hc] at hc1; injection hc1 with he; rw [he]; exact hw1
  · rw [hc] at hc2; injection hc2 with he; rw [he]; exact hw2

theorem getTextSep_head (sep : PyStr) (n : HNode) (h : getTextSep sep n ≠ []) :
    ∃ c cs, getTextSep sep n = c :: cs ∧ isWsCh c = false := by
  cases hsegs : segsOf n with
  | nil => unfold getTextSep at h; rw [hsegs] at h; simp [joinSegs] at h
  | cons s rest =>
    have hmem' : ∀ x ∈ s :: rest, x ≠ [] := by
      rw [← hsegs]; exact fun x hx => (segsOf_facts n x hx).1
    have hhd := joinSegs_head? sep (s :: rest) (by simp) hmem'
    have hs : s ∈ segsOf n := by rw [hsegs]; simp
    have hsne := (segsOf_facts n s hs).1
    cases hsc : s with
    | nil => exact absurd hsc hsne
    | cons c cs' =>
      have hw : isWsCh c = false := (segsOf_facts n s hs).2.1 c (by rw [hsc]; rfl)
      have hsm : (joinSegs sep (s :: rest)).head? = some c := by
        rw [hhd]; simp only [List.headD]; rw [hsc]; rfl
      unfold getTextSep
      rw [hsegs]
      cases hj : joinSegs sep (s :: rest) with
      | nil => rw [hj] at hsm; cases hsm
      | cons d ds =>
        rw [hj] at hsm
        injection hsm with hd
        exact ⟨d, ds, rfl, by rw [hd]; exact hw⟩

theorem getTextSep_getLast (sep : PyStr) (n : HNode) (h : getTextSep sep n ≠ []) :
    ∀ c, (getTextSep sep n).getLast? = some c → isWsCh c = false := by
  intro c hc
  cases hsegs : segsOf n with
  | nil => unfold getTextSep at h; rw [hsegs] at h; simp [joinSegs] at h
  | cons s rest =>
    have hmem' : ∀ x ∈ s :: rest, x ≠ [] := by
      rw [← hsegs]; exact fun x hx => (segsOf_facts n x hx).1
    obtain ⟨x, hx, hgl⟩ := joinSegs_getLast sep (s :: rest) (by simp) hmem'
    have hxm : x ∈ segsOf n := by rw [hsegs]; exact hx
    have hfacts := segsOf_facts n x hxm
    unfold getTextSep at hc
    rw [hsegs, hgl] at hc
    exact hfacts.2.2 c hc

theorem textStrip_fix (n : HNode) : trimBoth (textStrip n) = textStrip n := by
  by_cases h : textStrip n = []
  · rw [h]; rfl
  · apply trimBoth_fix
    · intro c hc
      obtain ⟨d, ds, he, hw⟩ := getTextSep_head [] n h
      unfold textStrip at hc
      rw [he] at hc
      injection hc with h1
      rw [← h1]; exact hw
    · exact getTextSep_getLast [] n h

/-! ## Helper lemmas: the dedup accumulation loop -/

theorem dedupFrom_append (acc l : List HNode) :
    ∃ ex, dedupFrom acc l = acc ++ ex ∧ ex.Sublist l := by
  induction l generalizing acc with
  | nil => exact ⟨[], by simp [dedupFrom], List.nil_sublist []⟩
  | cons p rest ih =>
    by_cases hc : isTruthyNode p = true ∧ p ∉ acc
    · obtain ⟨ex, he, hs⟩ := ih (acc ++ [p])
      refine ⟨p :: ex, ?_, hs.cons₂ p⟩
      rw [dedupFrom, if_pos hc, he, List.append_assoc]
      rfl
    · obtain ⟨ex, he, hs⟩ := ih acc
      exact ⟨ex, by rw [dedupFrom, if_neg hc]; exact he, hs.cons p⟩

theorem dedupFrom_nodup (acc l : List HNode) (h : acc.Nodup) : (dedupFrom acc l).Nodup := by
  induction l generalizing acc with
  | nil => simpa [dedupFrom] using h
  | cons p rest ih =>
    by_cases hc : isTruthyNode p = true ∧ p ∉ acc
    · rw [dedupFrom, if_pos hc]
      apply ih
      rw [List.nodup_append]
      refine ⟨h, List.nodup_singleton p, ?_⟩
      intro x hx hxp
      rw [List.mem_singleton] at hxp
      subst hxp
      exact hc.2 hx
    · rw [dedupFrom, if_neg hc]
      exact ih acc h

theorem dedupFrom_mem_acc (acc l : List HNode) (q : HNode) (hq : q ∈ acc) :
    q ∈ dedupFrom acc l := by
  obtain ⟨ex, he, _⟩ := dedupFrom_append acc l
  rw [he]
  exact List.mem_append_left ex hq

theorem dedupFrom_complete (acc l : List HNode) :
    ∀ p ∈ l, isTruthyNode p = true → p ∈ dedupFrom acc l := by
  induction l generalizing acc with
  | nil => intro p hp; cases hp
  | cons q rest ih =>
    intro p hp ht
    rcases List.mem_cons.mp hp with rfl | hpr
    · by_cases hc : isTruthyNode p = true ∧ p ∉ acc
      · rw [dedupFrom, if_pos hc]
        exact dedupFrom_mem_acc (acc ++ [p]) rest p (by simp)
      · rw [dedupFrom, if_neg hc]
        have hmem : p ∈ acc := by
          by_contra hn
          exact hc ⟨ht, hn⟩
        exact dedupFrom_mem_acc acc rest p hmem
    · by_cases hc : isTruthyNode q = true ∧ q ∉ acc
      · rw [dedupFrom, if_pos hc]; exact ih (acc ++ [q]) p hpr ht
      · rw [dedupFrom, if_neg hc]; exact ih acc p hpr ht

/-! ## Helper lemmas: regex matchers -/

theorem searchFirst_shape {P : PyStr → Prop} (m : PyStr → Option PyStr)
    (hm : ∀ cs y, m cs = some y → P y) :
    ∀ cs y, searchFirst m cs = some y → P y
  | [], y, h => by simp [searchFirst] at h
  | c :: cs, y, h => by
    rw [searchFirst] at h
    cases hm1 : m (c :: cs) with
    | some z =>
      rw [hm1] at h
      simp only [Option.some_orElse] at h
      injection h with hz
      exact hz ▸ hm (c :: cs) z hm1
    | none =>
      rw [hm1] at h
      simp only [Option.none_orElse] at h
      exact searchFirst_shape m hm cs y h

theorem isDig_bounds (c : Char) (h : isDig c = true) : 48 ≤ c.toNat ∧ c.toNat ≤ 57 := by
  simpa [isDig] using h

theorem matchYearAt_isYear4 (cs y : PyStr) (h : matchYearAt cs = some y) : isYear4 y := by
  unfold matchYearAt at h
  split at h
  case h_1 a b rest =>
    split at h
    case isTrue hd =>
      injection h with hy
      rw [Bool.and_eq_true] at hd
      obtain ⟨hda, hdb⟩ := hd
      obtain ⟨ha1, ha2⟩ := isDig_bounds a hda
      obtain ⟨hb1, hb2⟩ := isDig_bounds b hdb
      have h1 : ('1' : Char).toNat = 49 := rfl
      have h9 : ('9' : Char).toNat = 57 := rfl
      refine ⟨by rw [← hy]; rfl, ?_, ?_, ?_⟩
      · intro c hc
        rw [← hy] at hc
        simp only [List.mem_cons, List.not_mem_nil, or_false] at hc
        rcases hc with rfl | rfl | rfl | rfl
        · decide
        · decide
        · exact hda
        · exact hdb
      · rw [← hy]; simp only [digitsVal, List.foldl]; omega
      · rw [← hy]; simp only [digitsVal, List.foldl]; omega
    case isFalse => cases h
  case h_2 a b rest =>
    split at h
    case isTrue hd =>
      injection h with hy
      rw [Bool.and_eq_true] at hd
      obtain ⟨hda, hdb⟩ := hd
      obtain ⟨ha1, ha2⟩ := isDig_bounds a hda
      obtain ⟨hb1, hb2⟩ := isDig_bounds b hdb
      have h2 : ('2' : Char).toNat = 50 := rfl
      have h0 : ('0' : Char).toNat = 48 := rfl
      refine ⟨by rw [← hy]; rfl, ?_, ?_, ?_⟩
      · intro c hc
        rw [← hy] at hc
        simp only [List.mem_cons, List.not_mem_nil, or_false] at hc
        rcases hc with rfl | rfl | rfl | rfl
        · decide
        · decide
        · exact hda
        · exact hdb
      · rw [← hy]; simp only [digitsVal, List.foldl]; omega
      · rw [← hy]; simp only [digitsVal, List.foldl]; omega
    case isFalse => cases h
  case h_3 => cases h

theorem searchYear_isYear4 (s y : PyStr) (h : searchYear s = some y) : isYear4 y :=
  searchFirst_shape matchYearAt matchYearAt_isYear4 s y h

theorem orElse_eq_some (a c : Option PyStr) (y : PyStr) (h : (a <|> c) = some y) :
    a = some y ∨ (a = none ∧ c = some y) := by
  cases a with
  | some z => left; simpa using h
  | none => right; exact ⟨rfl, by simpa using h⟩

theorem lowStarts_eq (unit s : PyStr) (h : lowStarts unit s = true) :
    (s.take unit.length).map Char.toLower = unit := by
  simpa [lowStarts] using h

theorem durWithWs_shape (unit d r s : PyStr) (hd1 : 1 ≤ d.length) (hd3 : d.length ≤ 3)
    (hdig : ∀ c ∈ d, isDig c = true)
    (hu : unit = "min".data ∨ unit = "minutes".data)
    (h : durWithWs unit d r = some s) : isMinutesShape s := by
  unfold durWithWs at h
  split at h
  case h_1 w r2 =>
    split at h
    case isTrue hg =>
      rw [Bool.and_eq_true] at hg
      injection h with hs
      refine ⟨d, [w], r2.take unit.length, ?_, hd1, hd3, hdig, Or.inr ⟨w, hg.1, rfl⟩, ?_⟩
      · rw [← hs]; simp
      · have hl := lowStarts_eq unit r2 hg.2
        rcases hu with rfl | rfl
        · exact Or.inl hl
        · exact Or.inr hl
    case isFalse => cases h
  case h_2 => cases h

theorem durNoWs_shape (unit d r s : PyStr) (hd1 : 1 ≤ d.length) (hd3 : d.length ≤ 3)
    (hdig : ∀ c ∈ d, isDig c = true)
    (hu : unit = "min".data ∨ unit = "minutes".data)
    (h : durNoWs unit d r = some s) : isMinutesShape s := by
  unfold durNoWs at h
  split at h
  case isTrue hg =>
    injection h with hs
    refine ⟨d, [], r.take unit.length, ?_, hd1, hd3, hdig, Or.inl rfl, ?_⟩
    · rw [← hs]; simp
    · have hl := lowStarts_eq unit r hg
      rcases hu with rfl | rfl
      · exact Or.inl hl
      · exact Or.inr hl
  case isFalse => cases h

theorem tryDur_shape (unit : PyStr) (k : Nat) (cs s : PyStr)
    (hk1 : 1 ≤ k) (hk3 : k ≤ 3)
    (hu : unit = "min".data ∨ unit = "minutes".data)
    (h : tryDur unit k cs = some s) : isMinutesShape s := by
  unfold tryDur at h
  dsimp only at h
  split at h
  case isTrue hg =>
    rw [Bool.and_eq_true] at hg
    have hlen : (cs.take k).length = k := by simpa using hg.1
    have hdig : ∀ c ∈ cs.take k, isDig c = true := by
      intro c hc
      exact List.all_eq_true.mp hg.2 c hc
    have hd1 : 1 ≤ (cs.take k).length := by omega
    have hd3 : (cs.take k).length ≤ 3 := by omega
    rcases orElse_eq_some _ _ _ h with h1 | ⟨_, h2⟩
    · exact durWithWs_shape unit (cs.take k) (cs.drop k) s hd1 hd3 hdig hu h1
    · exact durNoWs_shape unit (cs.take k) (cs.drop k) s hd1 hd3 hdig hu h2
  case isFalse => cases h

theorem durAlt_shape (unit cs s : PyStr)
    (hu : unit = "min".data ∨ unit = "minutes".data)
    (h : durAlt unit cs = some s) : isMinutesShape s := by
  unfold durAlt at h
  rcases orElse_eq_some _ _ _ h with h1 | ⟨_, h2⟩
  · exact tryDur_shape unit 3 cs s (by omega) (by omega) hu h1
  · rcases orElse_eq_some _ _ _ h2 with h3 | ⟨_, h4⟩
    · exact tryDur_shape unit 2 cs s (by omega) (by omega) hu h3
    · exact tryDur_shape unit 1 cs s (by omega) (by omega) hu h4

theorem matchDurAt_shape (cs s : PyStr) (h : matchDurAt cs = some s) : isMinutesShape s := by
  unfold matchDurAt at h
  rcases orElse_eq_some _ _ _ h with h1 | ⟨_, h2⟩
  · exact durAlt_shape "min".data cs s (Or.inl rfl) h1
  · exact durAlt_shape "minutes".data cs s (Or.inr rfl) h2

theorem searchDur_shape (t s : PyStr) (h : searchDur t = some s) : isMinutesShape s :=
  searchFirst_shape matchDurAt matchDurAt_shape t s h

theorem ratingAlt_ne_nil (tailPat d rest s : PyStr) (hd : d ≠ [])
    (h : ratingAlt tailPat d rest = some s) : s ≠ [] := by
  unfold ratingAlt at h
  rcases orElse_eq_some _ _ _ h with h1 | ⟨_, h2⟩
  · split at h1
    case h_1 fr r3 =>
      split at h1
      case isTrue =>
        injection h1 with hs
        rw [← hs]
        cases d with
        | nil => cases hd rfl
        | cons c cs => simp
      case isFalse => cases h1
    case h_2 => cases h1
  · split at h2
    case isTrue =>
      injection h2 with hs
      rw [← hs]
      cases d with
      | nil => cases hd rfl
      | cons c cs => simp
    case isFalse => cases h2

theorem matchRatingAt_ne_nil (cs s : PyStr) (h : matchRatingAt cs = some s) : s ≠ [] := by
  unfold matchRatingAt at h
  dsimp only at h
  split at h
  case isTrue => cases h
  case isFalse hg =>
    have hd : cs.takeWhile isDig ≠ [] := by
      intro he
      rw [he] at hg
      simp at hg
    rcases orElse_eq_some _ _ _ h with h1 | ⟨_, h2⟩
    · exact ratingAlt_ne_nil "/10".data (cs.takeWhile isDig) (cs.dropWhile isDig) s hd h1
    · exact ratingAlt_ne_nil " out of 10".data (cs.takeWhile isDig) (cs.dropWhile isDig) s hd h2

theorem searchRating_ne_nil (t s : PyStr) (h : searchRating t = some s) : s ≠ [] :=
  searchFirst_shape matchRatingAt matchRatingAt_ne_nil t s h

theorem firstSummary_shape : ∀ (ps : List HNode) (t : PyStr), firstSummary ps = some t →
    20 < t.length ∧ ∃ p ∈ ps, t = textStrip p
  | [], t, h => by simp [firstSummary] at h
  | p :: rest, t, h => by
    rw [firstSummary] at h
    split at h
    case isTrue hg =>
      injection h with ht
      rw [Bool.and_eq_true] at hg
      have hlen : 20 < (textStrip p).length := of_decide_eq_true hg.2
      exact ⟨ht ▸ hlen, p, by simp, by rw [← ht]⟩
    case isFalse =>
      obtain ⟨hl, p', hp', ht'⟩ := firstSummary_shape rest t h
      exact ⟨hl, p', by simp [hp'], ht'⟩

theorem splitNl_ne_nil (t : PyStr) : splitNl t ≠ [] := by
  cases t with
  | nil => simp [splitNl]
  | cons c cs =>
    rw [splitNl]
    split
    · simp
    · split <;> simp

theorem splitNl_head_cons (c : Char) (cs : PyStr) (hc : (c == '\n') = false) :
    ∃ h t, splitNl (c :: cs) = (c :: h) :: t := by
  cases hsp : splitNl cs with
  | nil => exact absurd hsp (splitNl_ne_nil cs)
  | cons hh tt =>
    refine ⟨hh, tt, ?_⟩
    rw [splitNl]
    rw [hsp, if_neg (by simp [hc])]

theorem trimBoth_ne_nil_of_head (c : Char) (cs : PyStr) (h : isWsCh c = false) :
    trimBoth (c :: cs) ≠ [] := by
  unfold trimBoth
  intro he
  rw [dropWs_of_head c cs h, List.reverse_eq_nil_iff] at he
  exact dropWs_ne_nil ((c :: cs).reverse) c (by simp) h he

/-! ## Claim theorems -/

/-- C1: for every item node and base URL, the field extractor (the per-item
body of scrape_movies) never raises (it is a total function) and the Record
it returns has Title and Rating as non-absent, non-null strings, with the
placeholder N/A used when a field is unresolved. -/
theorem C1_extract_title_rating (joinUrl : PyStr → PyStr → PyStr) (url : PyStr) (movie : HNode) :
    (extractRec joinUrl url movie).Title ≠ [] ∧
    (extractRec joinUrl url movie).Rating ≠ [] ∧
    (cascadeFirst movie titleSelectors = none → fullTextOf movie = [] →
      (extractRec joinUrl url movie).Title = NA) ∧
    (cascadeFirst movie ratingSelectors = none → searchRating (fullTextOf movie) = none →
      (extractRec joinUrl url movie).Rating = NA) := by
  have hT : ∀ (o : Option PyStr), (if strFalsy o then NA else o.getD []) ≠ [] := by
    intro o
    by_cases hf : strFalsy o = true
    · rw [if_pos hf]; decide
    · rw [if_neg hf]
      cases o with
      | none => simp [strFalsy] at hf
      | some s =>
        simp only [strFalsy, Bool.not_eq_true, List.isEmpty_eq_false] at hf
        simpa using hf
  refine ⟨?_, ?_, ?_, ?_⟩
  · show titleOf movie ≠ []
    unfold titleOf
    exact hT _
  · show ratingOf movie ≠ []
    unfold ratingOf
    exact hT _
  · intro hcas htext
    show titleOf movie = NA
    unfold titleOf
    rw [hcas, htext]
    rfl
  · intro hcas hsr
    show ratingOf movie = NA
    unfold ratingOf
    rw [hcas, hsr]
    rfl

/-- C1 witness: the empty item yields the placeholders and non-null fields. -/
theorem C1_witness :
    (extractRec joinUrlId [] nodeEmptyDiv).Title ≠ [] ∧
    (extractRec joinUrlId [] nodeEmptyDiv).Rating ≠ [] ∧
    (extractRec joinUrlId [] nodeEmptyDiv).Title = NA ∧
    (extractRec joinUrlId [] nodeEmptyDiv).Rating = NA := by
  have h := C1_extract_title_rating joinUrlId [] nodeEmptyDiv
  exact ⟨h.1, h.2.1, h.2.2.1 rfl rfl, h.2.2.2 rfl rfl⟩

/-- C2: in the Listing Locator cascade the first selector with a non-empty
match set wins exclusively: when the dedicated movie-item selector matches
(and a later selector such as the generic article also would), the result is
exactly the dedicated selector matches. -/
theorem C2_cascade_first_wins (soup : HNode)
    (h1 : selectAll soup (Sel.tagAndClass "div" "movie-item") ≠ [])
    (_h2 : selectAll soup (Sel.tagName "article") ≠ []) :
    movieListings soup = selectAll soup (Sel.tagAndClass "div" "movie-item") := by
  have h1e : (selectAll soup (Sel.tagAndClass "div" "movie-item")).isEmpty = false := by
    simpa [List.isEmpty_eq_false] using h1
  unfold movieListings listingSelectors firstNonEmptyMatch
  simp [h1e]

/-- C2 witness: a page with a dedicated movie item and a generic article. -/
theorem C2_witness :
    movieListings c2Tree = selectAll c2Tree (Sel.tagAndClass "div" "movie-item") :=
  C2_cascade_first_wins c2Tree (by decide) (by decide)

/-- C6: for every URL, a transport failure (modelled as the absent fetch
outcome) makes fetch_movie_details_from_page return the all-absent
EnrichmentResult rather than raising. -/
theorem C6_transport_failure (r : Option HNode) (h : r = none) :
    fetchMovieDetailsFromPage r =
      { Summary := none, Year := none, Duration := none, Additional := none } := by
  rw [h]
  rfl

/-- C6 witness. -/
theorem C6_witness :
    fetchMovieDetailsFromPage none =
      { Summary := none, Year := none, Duration := none, Additional := none } :=
  C6_transport_failure none rfl

/-- C9: the process exits with code 1 exactly when the scrape yields zero
records (no items found or the initial fetch failed), with code 0 otherwise,
and a JSON write failure never changes the exit code. -/
theorem C9_exit_code (fetched : Option HNode) (joinUrl : PyStr → PyStr → PyStr) (url : PyStr)
    (jsonRequested writeOk : Bool) :
    ((mainRun fetched joinUrl url jsonRequested writeOk).exitCode = 1 ↔
      scrapeMovies fetched joinUrl url = []) ∧
    ((mainRun fetched joinUrl url jsonRequested writeOk).exitCode = 0 ↔
      scrapeMovies fetched joinUrl url ≠ []) ∧
    ((mainRun fetched joinUrl url jsonRequested writeOk).exitCode =
      (mainRun fetched joinUrl url jsonRequested (!writeOk)).exitCode) := by
  by_cases h : (scrapeMovies fetched joinUrl url).isEmpty = true
  · have he : scrapeMovies fetched joinUrl url = [] := List.isEmpty_iff.mp h
    simp [mainRun, h, he]
  · have he : scrapeMovies fetched joinUrl url ≠ [] := by
      intro hn
      exact h (List.isEmpty_iff.mpr hn)
    have h' : (scrapeMovies fetched joinUrl url).isEmpty = false := by
      simpa using h
    simp [mainRun, h', he]

/-- C9 witness: a failed initial fetch yields exit code 1, regardless of the
JSON write outcome. -/
theorem C9_witness :
    (mainRun none joinUrlId [] true false).exitCode = 1 ∧
    (mainRun none joinUrlId [] true false).exitCode =
      (mainRun none joinUrlId [] true true).exitCode := by
  have h := C9_exit_code none joinUrlId [] true false
  exact ⟨h.1.mpr rfl, h.2.2⟩

/-- C10: when the first paragraph of an item exists but its stripped text is
empty, the Snippet is not the paragraph text: it is the fallback, the
truncated whitespace-normalized full text. -/
theorem C10_snippet_fallback (joinUrl : PyStr → PyStr → PyStr) (url : PyStr) (movie p : HNode)
    (hp : findTag movie "p" = some p) (ht : textStrip p = []) :
    (extractRec joinUrl url movie).Snippet = snippetFallback movie := by
  show snippetOf movie = snippetFallback movie
  unfold snippetOf
  simp [hp, ht]

/-- C10 witness: an item whose first paragraph strips to nothing takes the
full-text fallback. -/
theorem C10_witness :
    (extractRec joinUrlId [] snipNode).Snippet = snippetFallback snipNode ∧
    (extractRec joinUrlId [] snipNode).Snippet = "Some text here".data := by
  refine ⟨C10_snippet_fallback joinUrlId [] snipNode (.el "p" [] [.txt "   "]) rfl rfl, ?_⟩
  decide

/-- C8: one step of the Selection Loop in the AwaitingInput state: the input
0 transitions to Exit; non-numeric input re-prompts and stays in
AwaitingInput; a numeric input above N re-prompts and stays; a numeric input
within 1..N shows the detail of the record at index idx-1 and returns to
AwaitingInput. -/
theorem C8_menu_step (n : Nat) (raw : PyStr) :
    menuStep n "0".data = (MenuState.exited, MenuAct.exitMsg) ∧
    menuStep n "abc".data = (MenuState.awaitingInput, MenuAct.errPrompt) ∧
    (pyIsDigit (trimBoth raw) = false →
      menuStep n raw = (MenuState.awaitingInput, MenuAct.errPrompt)) ∧
    (pyIsDigit (trimBoth raw) = true → digitsVal (trimBoth raw) = 0 →
      menuStep n raw = (MenuState.exited, MenuAct.exitMsg)) ∧
    (pyIsDigit (trimBoth raw) = true → n < digitsVal (trimBoth raw) →
      menuStep n raw = (MenuState.awaitingInput, MenuAct.errPrompt)) ∧
    (pyIsDigit (trimBoth raw) = true → 1 ≤ digitsVal (trimBoth raw) →
      digitsVal (trimBoth raw) ≤ n →
      menuStep n raw =
        (MenuState.awaitingInput, MenuAct.showDetail (digitsVal (trimBoth raw) - 1))) := by
  refine ⟨rfl, rfl, ?_, ?_, ?_, ?_⟩
  · intro hd
    unfold menuStep
    simp [hd]
  · intro hd hv
    unfold menuStep
    simp [hd, hv]
  · intro hd hv
    unfold menuStep
    have h0 : digitsVal (trimBoth raw) ≠ 0 := by omega
    simp [hd, h0]
    omega
  · intro hd h1 h2
    unfold menuStep
    have h0 : digitsVal (trimBoth raw) ≠ 0 := by omega
    have hlt : ¬ digitsVal (trimBoth raw) < 1 := by omega
    have hgt : ¬ n < digitsVal (trimBoth raw) := by omega
    simp [hd, h0, hlt, hgt]

/-- C8 witness: with three records, 0 exits, abc and 99 re-prompt in place,
and 2 shows the second record then awaits input again. -/
theorem C8_witness :
    menuStep 3 "0".data = (MenuState.exited, MenuAct.exitMsg) ∧
    menuStep 3 "abc".data = (MenuState.awaitingInput, MenuAct.errPrompt) ∧
    menuStep 3 "99".data = (MenuState.awaitingInput, MenuAct.errPrompt) ∧
    menuStep 3 "2".data = (MenuState.awaitingInput, MenuAct.showDetail 1) := by
  have h := C8_menu_step 3 "99".data
  have h' := C8_menu_step 3 "2".data
  exact ⟨h.1, h.2.1, h.2.2.2.2.1 (by decide) (by decide),
    h'.2.2.2.2.2 (by decide) (by decide) (by decide)⟩

/-- C7 counterexample: an item whose full text contains 7.5/10 as a strict
substring of 17.5/10; no rating selector matches, yet the Rating is the full
first match 17.5/10, not 7.5/10. This refutes the claim as universally
stated. -/
theorem C7_counterexample :
    cascadeFirst node17 ratingSelectors = none ∧
    containsSub "7.5/10".data (fullTextOf node17) = true ∧
    (extractRec joinUrlId [] node17).Rating = "17.5/10".data ∧
    "17.5/10".data ≠ "7.5/10".data := by
  refine ⟨rfl, rfl, rfl, by decide⟩

/-- C7 amended: when no rating selector matches, the Rating is the full
matched substring of the first rating-regex match over the item full text
(in particular 7.5/10 whenever that is the first match), and the placeholder
N/A when the regex does not match either. -/
theorem C7_rating_first_match (joinUrl : PyStr → PyStr → PyStr) (url : PyStr) (movie : HNode)
    (h : cascadeFirst movie ratingSelectors = none) :
    (∀ r, searchRating (fullTextOf movie) = some r →
      (extractRec joinUrl url movie).Rating = r) ∧
    (searchRating (fullTextOf movie) = none →
      (extractRec joinUrl url movie).Rating = NA) := by
  constructor
  · intro r hr
    show ratingOf movie = r
    have hne := searchRating_ne_nil (fullTextOf movie) r hr
    have hie : r.isEmpty = false := by simpa [List.isEmpty_eq_false] using hne
    simp [ratingOf, h, hr, strFalsy, hie]
  · intro hnone
    show ratingOf movie = NA
    simp [ratingOf, h, hnone, strFalsy]

/-- C7 witness: a text whose first match is exactly 7.5/10. -/
theorem C7_witness : (extractRec joinUrlId [] node75).Rating = "7.5/10".data :=
  (C7_rating_first_match joinUrlId [] node75 rfl).1 "7.5/10".data rfl

/-- C4 counterexample: an item whose only text is the literal string N/A.
The cascade exhausts, the node has text, and the Title still equals N/A,
refuting the claimed equivalence (Title = N/A exactly when there is no
text). -/
theorem C4_counterexample :
    cascadeFirst nodeTextNA titleSelectors = none ∧
    fullTextOf nodeTextNA ≠ [] ∧
    (extractRec joinUrlId [] nodeTextNA).Title = NA := by
  refine ⟨rfl, by decide, rfl⟩

/-- C4 amended: when the title cascade exhausts, the Title is the stripped
first non-blank line of the item full text split on newlines, and it is the
placeholder N/A whenever the node has no text at all (the converse
implication does not hold, as a node whose text is the literal N/A shows). -/
theorem C4_title_fallback (joinUrl : PyStr → PyStr → PyStr) (url : PyStr) (movie : HNode)
    (h : cascadeFirst movie titleSelectors = none) :
    (fullTextOf movie = [] → (extractRec joinUrl url movie).Title = NA) ∧
    (fullTextOf movie ≠ [] →
      ∃ l, firstNonBlankLine (fullTextOf movie) = some l ∧
        (extractRec joinUrl url movie).Title = trimBoth l) := by
  constructor
  · intro htext
    show titleOf movie = NA
    unfold titleOf
    rw [h, htext]
    rfl
  · intro htext
    obtain ⟨c, cs, he, hw⟩ := getTextSep_head [' '] movie htext
    have hcnl : (c == '\n') = false := by
      rw [beq_eq_false_iff_ne]
      intro hceq
      rw [hceq] at hw
      simp [isWsCh] at hw
    obtain ⟨lh, lt, hsp⟩ := splitNl_head_cons c cs hcnl
    have htb : trimBoth (c :: lh) ≠ [] := trimBoth_ne_nil_of_head c lh hw
    have hie : (trimBoth (c :: lh)).isEmpty = false := by
      simpa [List.isEmpty_eq_false] using htb
    refine ⟨c :: lh, ?_, ?_⟩
    · unfold firstNonBlankLine
      have he' : fullTextOf movie = c :: cs := he
      rw [he', hsp]
      rw [List.find?_cons_of_pos]
      simp [hie]
    · show titleOf movie = trimBoth (c :: lh)
      have he' : fullTextOf movie = c :: cs := he
      simp only [titleOf, h, strFalsy, he', hsp, List.isEmpty_cons, List.headD,
        Bool.false_eq_true, if_false, if_true, List.isEmpty_nil]
      simp [hie]

/-- C4 witness: multi-line text with the cascade exhausted. -/
theorem C4_witness :
    ∃ l, firstNonBlankLine (fullTextOf nodeTitleLines) = some l ∧
      (extractRec joinUrlId [] nodeTitleLines).Title = trimBoth l :=
  (C4_title_fallback joinUrlId [] nodeTitleLines rfl).2 (by decide)

/-- C5 counterexample: two headings whose parents are structurally equal but
positionally distinct give one candidate, not two: the dedup of the
heading-parent fallback compares node values (the Python operator in uses
the structural Tag equality), not identities. -/
theorem C5_counterexample :
    firstNonEmptyMatch c5Tree listingSelectors = [] ∧
    headingParents c5Tree = [c5Div, c5Div] ∧
    movieListings c5Tree = [c5Div] := by
  refine ⟨by decide, by decide, by decide⟩

/-- C5 amended: when no cascade selector matches, the Listing Locator
returns the heading parents deduplicated by structural equality, keeping
first occurrences in order (a sublist of the raw parent sequence with no
duplicates, containing every truthy raw parent), and the empty sequence when
no headings exist. -/
theorem C5_heading_parent_dedup (soup : HNode)
    (h : firstNonEmptyMatch soup listingSelectors = []) :
    (movieListings soup).Sublist (headingParents soup) ∧
    (movieListings soup).Nodup ∧
    (∀ p ∈ headingParents soup, isTruthyNode p = true → p ∈ movieListings soup) ∧
    (headingParents soup = [] → movieListings soup = []) := by
  have hml : movieListings soup = dedupFrom [] (headingParents soup) := by
    unfold movieListings
    simp [h]
  rw [hml]
  refine ⟨?_, ?_, ?_, ?_⟩
  · obtain ⟨ex, he, hs⟩ := dedupFrom_append [] (headingParents soup)
    rw [he]
    simpa using hs
  · exact dedupFrom_nodup [] (headingParents soup) List.nodup_nil
  · exact fun p hp ht => dedupFrom_complete [] (headingParents soup) p hp ht
  · intro hnil
    rw [hnil]
    rfl

/-- C5 witness: two structurally distinct heading parents are both kept, in
order, with no duplicates. -/
theorem C5_witness :
    (movieListings c5wTree).Sublist (headingParents c5wTree) ∧
    (movieListings c5wTree).Nodup ∧
    c5Div ∈ movieListings c5wTree ∧
    c5Sect ∈ movieListings c5wTree := by
  have h := C5_heading_parent_dedup c5wTree rfl
  exact ⟨h.1, h.2.1, h.2.2.1 c5Div (by decide) (by decide),
    h.2.2.1 c5Sect (by decide) (by decide)⟩

/-- C3 counterexample: extract_details_from_rawhtml takes the very first
paragraph with no length requirement, so a Summary of stripped length 5 is
produced, refuting the claimed >20 invariant for both entry modes. -/
theorem C3_counterexample :
    (extractDetailsFromRawhtml c3Raw).Summary = some "short".data ∧
    ¬ 20 < (trimBoth "short".data).length := by
  exact ⟨rfl, by decide⟩

/-- C3 amended: Additional is always absent in both modes; Year, when
present, is a 4-digit string in 1900..2099 in both modes; Duration, when
present, matches the minutes pattern in both modes; the Summary of the
from-link mode has stripped length above 20 when present, while the Summary
of the from-raw mode is only guaranteed to be non-empty stripped text. -/
theorem C3_enrichment_shape (fr : Option HNode) (soup : HNode) :
    (fetchMovieDetailsFromPage fr).Additional = none ∧
    (extractDetailsFromRawhtml soup).Additional = none ∧
    (∀ t, (fetchMovieDetailsFromPage fr).Summary = some t → 20 < (trimBoth t).length) ∧
    (∀ t, (extractDetailsFromRawhtml soup).Summary = some t → t ≠ [] ∧ trimBoth t = t) ∧
    (∀ y, (fetchMovieDetailsFromPage fr).Year = some y → isYear4 y) ∧
    (∀ y, (extractDetailsFromRawhtml soup).Year = some y → isYear4 y) ∧
    (∀ d, (fetchMovieDetailsFromPage fr).Duration = some d → isMinutesShape d) ∧
    (∀ d, (extractDetailsFromRawhtml soup).Duration = some d → isMinutesShape d) := by
  refine ⟨?_, rfl, ?_, ?_, ?_, ?_, ?_, ?_⟩
  · cases fr <;> rfl
  · intro t ht
    cases fr with
    | none => cases ht
    | some s =>
      simp only [fetchMovieDetailsFromPage, detailsOfPage] at ht
      obtain ⟨hlen, p, hp, htp⟩ :=
        firstSummary_shape ((descendants s).filter (tagIs "p")) t ht
      rw [htp, textStrip_fix]
      rw [htp] at hlen
      exact hlen
  · intro t ht
    unfold extractDetailsFromRawhtml at ht
    simp only at ht
    split at ht
    case h_1 p heq =>
      split at ht
      case isTrue hg =>
        injection ht with htp
        rw [Bool.and_eq_true] at hg
        have hne : textStrip p ≠ [] := by
          simpa [List.isEmpty_eq_false] using hg.2
        rw [← htp]
        exact ⟨hne, textStrip_fix p⟩
      case isFalse => cases ht
    case h_2 => cases ht
  · intro y hy
    cases fr with
    | none => cases hy
    | some s =>
      simp only [fetchMovieDetailsFromPage, detailsOfPage] at hy
      exact searchYear_isYear4 (fullTextOf s) y hy
  · intro y hy
    unfold extractDetailsFromRawhtml at hy
    simp only at hy
    exact searchYear_isYear4 (fullTextOf soup) y hy
  · intro d hd
    cases fr with
    | none => cases hd
    | some s =>
      simp only [fetchMovieDetailsFromPage, detailsOfPage] at hd
      exact searchDur_shape (fullTextOf s) d hd
  · intro d hd
    unfold extractDetailsFromRawhtml at hd
    simp only at hd
    exact searchDur_shape (fullTextOf soup) d hd

/-- C3 witness: a page whose Summary, Year and Duration all resolve, and a
raw fragment whose Summary is short but non-empty. -/
theorem C3_witness :
    (fetchMovieDetailsFromPage (some c3Page)).Additional = none ∧
    20 < (trimBoth "This is a sufficiently long summary paragraph.".data).length ∧
    isYear4 "1994".data ∧
    isMinutesShape "120 min".data ∧
    ("short".data ≠ ([] : PyStr) ∧ trimBoth "short".data = "short".data) := by
  have h := C3_enrichment_shape (some c3Page) c3Raw
  exact ⟨h.1,
    h.2.2.1 "This is a sufficiently long summary paragraph.".data (by decide),
    h.2.2.2.2.1 "1994".data (by decide),
    h.2.2.2.2.2.2.1 "120 min".data (by decide),
    h.2.2.2.1 "short".data (by decide)⟩
